/-
  Verification of the tratort gesture-to-intent pipeline and interaction
  state machine (source: src/constants.ts of the repository, which holds the
  GameEngine class, and src/unnamed/part_000 holding the shared enums).

  Embedding conventions:
  - Machine floats of the source are embedded as exact rationals (ℚ).  All
    comparisons the source performs on Math.hypot distances are embedded as
    the equivalent comparisons on squared distances (sqrt is strictly
    monotone on nonnegative reals, so `hypot a < hypot b` iff
    `hypotSq a < hypotSq b`, and `hypot d < 0.22` iff `hypotSq d < 0.22²`,
    and `hypot t > hypot p * 1.05` iff `hypotSq t > hypotSq p * 1.05²`);
    this keeps every definition executable and exact.
  - Wall-clock times (Date.now(), milliseconds) are embedded as ℤ.
  - DOM / rendering / audio side effects are not part of the embedded state:
    the spec treats them as downstream observers, and no claim concerns them.
-/
import Mathlib

namespace Tratort

/-! ## Shared enums (src/unnamed/part_000) -/

/-- `GameState` enum. -/
inductive GameState where
  | IDLE
  | READY
  | GRABBING
  | PREVIEW
  | CONFIRMED
  | DISINTEGRATING
deriving DecidableEq, Repr

/-- `Gesture` enum.  `POINT` is declared in the source enum but (claim C10)
never produced by the classifier. -/
inductive Gesture where
  | NONE
  | OPEN
  | PINCH
  | FIST
  | POINT
deriving DecidableEq, Repr

/-! ## Landmarks and the raw gesture classifier (`detectGestureRaw`) -/

/-- One MediaPipe hand landmark; the classifier only reads `.x` and `.y`
(`getDist` uses `Math.hypot(p1.x - p2.x, p1.y - p2.y)`), so the planar
coordinates suffice. -/
structure Pt where
  x : ℚ
  y : ℚ
deriving DecidableEq, Repr

/-- A landmark frame: 21 tracked points, wrist at index 0. -/
def LandmarkFrame : Type := Fin 21 → Pt

/-- Squared planar distance; embeds `getDist` (see header note on the
squared-distance embedding). -/
def distSq (p q : Pt) : ℚ :=
  (p.x - q.x) ^ 2 + (p.y - q.y) ^ 2

/-- `getDist(landmarks[i])` with the default second argument (the wrist,
landmark 0), squared. -/
def wristDistSq (lm : LandmarkFrame) (i : Fin 21) : ℚ :=
  distSq (lm i) (lm 0)

/-- `isFingerFolded(tip, mcp)`: tip closer to the wrist than the base
knuckle. -/
def isFingerFolded (lm : LandmarkFrame) (tip mcp : Fin 21) : Bool :=
  wristDistSq lm tip < wristDistSq lm mcp

/-- `PINCH_THRESHOLD = 0.22` (src/constants.ts line 52), squared for the
squared-distance embedding. -/
def pinchThresholdSq : ℚ := (22 / 100) ^ 2

/-- The `extendedFingers` count of `detectGestureRaw`: tips 8, 12, 16, 20
with `pipIdx = tipIdx - 2`, extended when
`getDist(tip) > getDist(pip) * 1.05` (squared on both sides). -/
def extendedFingers (lm : LandmarkFrame) : ℕ :=
  (([(8, 6), (12, 10), (16, 14), (20, 18)] : List (Fin 21 × Fin 21)).filter
    (fun p => wristDistSq lm p.1 > wristDistSq lm p.2 * (105 / 100) ^ 2)).length

/-- `detectGestureRaw` (src/constants.ts lines 363-395), translated
clause by clause. -/
def detectGestureRaw (lm : LandmarkFrame) : Gesture :=
  let middleFolded := isFingerFolded lm 12 9
  let ringFolded := isFingerFolded lm 16 13
  let pinkyFolded := isFingerFolded lm 20 17
  let indexFolded := isFingerFolded lm 8 5
  if indexFolded ∧
      2 ≤ (if middleFolded then 1 else 0) + (if ringFolded then 1 else 0) +
        (if pinkyFolded then 1 else 0) then
    Gesture.FIST
  else if distSq (lm 4) (lm 8) < pinchThresholdSq ∧ ¬indexFolded then
    Gesture.PINCH
  else if 3 ≤ extendedFingers lm then
    Gesture.OPEN
  else
    Gesture.NONE

/-! Spec-side restatement of the classifier, written from the words of
spec.md §4.1 (priority order, first match wins), to be compared with the
source translation above. -/

/-- Modelled from the spec wording: a finger given by (tip, base-knuckle)
indices is folded when its tip is closer to the wrist than its base knuckle
is. -/
def specFolded (lm : LandmarkFrame) (tip mcp : Fin 21) : Prop :=
  wristDistSq lm tip < wristDistSq lm mcp

instance (lm : LandmarkFrame) (tip mcp : Fin 21) :
    Decidable (specFolded lm tip mcp) :=
  inferInstanceAs (Decidable (wristDistSq lm tip < wristDistSq lm mcp))

/-- Spec §4.1 rule 1: index folded AND at least two of
{middle, ring, pinky} folded. -/
def specFistRule (lm : LandmarkFrame) : Prop :=
  specFolded lm 8 5 ∧
    2 ≤ (([(12, 9), (16, 13), (20, 17)] : List (Fin 21 × Fin 21)).countP
      (fun p => decide (specFolded lm p.1 p.2)))

/-- Spec §4.1 rule 2: thumb-tip-to-index-tip planar distance below 0.22
AND index not folded. -/
def specPinchRule (lm : LandmarkFrame) : Prop :=
  distSq (lm 4) (lm 8) < pinchThresholdSq ∧ ¬specFolded lm 8 5

/-- Spec §4.1 rule 3: at least 3 of the four non-thumb fingers have tip
farther from the wrist than their second joint by at least a 5% margin. -/
def specOpenRule (lm : LandmarkFrame) : Prop :=
  3 ≤ (([(8, 6), (12, 10), (16, 14), (20, 18)] : List (Fin 21 × Fin 21)).countP
    (fun p =>
      decide (wristDistSq lm p.1 > wristDistSq lm p.2 * (105 / 100) ^ 2)))

instance (lm : LandmarkFrame) : Decidable (specFistRule lm) :=
  inferInstanceAs (Decidable (_ ∧ _))

instance (lm : LandmarkFrame) : Decidable (specPinchRule lm) :=
  inferInstanceAs (Decidable (_ ∧ _))

instance (lm : LandmarkFrame) : Decidable (specOpenRule lm) :=
  inferInstanceAs (Decidable (_ ≤ _))

/-- The classifier as the spec words it: rules tried in priority order,
first match wins. -/
def classifySpec (lm : LandmarkFrame) : Gesture :=
  if specFistRule lm then Gesture.FIST
  else if specPinchRule lm then Gesture.PINCH
  else if specOpenRule lm then Gesture.OPEN
  else Gesture.NONE

lemma decide_specFolded (lm : LandmarkFrame) (tip mcp : Fin 21) :
    decide (specFolded lm tip mcp) = isFingerFolded lm tip mcp := rfl

lemma extendedFingers_eq_countP (lm : LandmarkFrame) :
    extendedFingers lm =
      (([(8, 6), (12, 10), (16, 14), (20, 18)] : List (Fin 21 × Fin 21)).countP
        (fun p =>
          decide (wristDistSq lm p.1 > wristDistSq lm p.2 * (105 / 100) ^ 2))) := by
  unfold extendedFingers
  rw [List.countP_eq_length_filter]

lemma isFingerFolded_iff (lm : LandmarkFrame) (tip mcp : Fin 21) :
    isFingerFolded lm tip mcp = true ↔ specFolded lm tip mcp := by
  simp [isFingerFolded, specFolded]

lemma detect_eq_classifySpec_aux (lm : LandmarkFrame) :
    detectGestureRaw lm = classifySpec lm := by
  unfold detectGestureRaw classifySpec specFistRule specPinchRule specOpenRule
  rw [extendedFingers_eq_countP]
  simp only [List.countP_cons, List.countP_nil, decide_specFolded]
  refine if_congr (and_congr (isFingerFolded_iff lm 8 5) ?_) rfl
    (if_congr (and_congr Iff.rfl (not_congr (isFingerFolded_iff lm 8 5))) rfl
      (if_congr Iff.rfl rfl rfl))
  generalize (if isFingerFolded lm 12 9 = true then (1 : ℕ) else 0) = a
  generalize (if isFingerFolded lm 16 13 = true then (1 : ℕ) else 0) = b
  generalize (if isFingerFolded lm 20 17 = true then (1 : ℕ) else 0) = c
  constructor <;> intro h <;> omega

/-- C4: the raw gesture classifier is a pure deterministic function of one
landmark frame and applies the spec's rules in priority order, first match
wins: FIST (index folded and at least two of middle/ring/pinky folded),
else PINCH (planar thumb-index distance below 0.22 and index not folded),
else OPEN (at least 3 of the four non-thumb fingers extended by a 5%
margin), else NONE. -/
theorem detectGestureRaw_eq_classifySpec (lm : LandmarkFrame) :
    detectGestureRaw lm = classifySpec lm :=
  detect_eq_classifySpec_aux lm

/-- C10: for every landmark frame the classifier returns one of
{FIST, PINCH, OPEN, NONE}; in particular the enum value POINT is never
produced. -/
theorem detectGestureRaw_mem_range (lm : LandmarkFrame) :
    detectGestureRaw lm = Gesture.FIST ∨ detectGestureRaw lm = Gesture.PINCH ∨
    detectGestureRaw lm = Gesture.OPEN ∨ detectGestureRaw lm = Gesture.NONE := by
  rw [detect_eq_classifySpec_aux]
  unfold classifySpec
  split
  · exact Or.inl rfl
  · split
    · exact Or.inr (Or.inl rfl)
    · split
      · exact Or.inr (Or.inr (Or.inl rfl))
      · exact Or.inr (Or.inr (Or.inr rfl))

/-! ## Gesture stabilizer buffer (`processHandResults` / `getStableGesture`) -/

/-- `BUFFER_SIZE = 4` (src/constants.ts line 87). -/
def BUFFER_SIZE : ℕ := 4

/-- The rolling-buffer update in `processHandResults` (lines 328-329):
`gestureBuffer.push(rawGesture); if (length > BUFFER_SIZE) shift()`. -/
def pushGestureBuffer (buf : List Gesture) (raw : Gesture) : List Gesture :=
  let b := buf ++ [raw]
  if BUFFER_SIZE < b.length then b.tail else b

/-- JS `Object.keys` insertion order of the count map built by the reduce in
`getStableGesture`: the labels of the buffer in first-occurrence order. -/
def keysInOrder (buf : List Gesture) : List Gesture :=
  buf.foldl (fun acc g => if g ∈ acc then acc else acc ++ [g]) []

/-- The keys-reduce of `getStableGesture`:
`keys.reduce((a, b) => counts[a] > counts[b] ? a : b)`, with the first key
as the seed. -/
def pickMaxKey (cnt : Gesture → ℕ) (a : Gesture) (l : List Gesture) : Gesture :=
  l.foldl (fun x y => if cnt x > cnt y then x else y) a

/-- `getStableGesture` (lines 358-361).  On an empty buffer the JS
`reduce` with no initial value would throw; the engine only calls this
after a push, so the buffer is never empty — embedded as `Option`. -/
def getStableGesture (buf : List Gesture) : Option Gesture :=
  match keysInOrder buf with
  | [] => none
  | k :: ks => some (pickMaxKey (fun g => buf.count g) k ks)

lemma mem_keysFold (x : Gesture) :
    ∀ (l acc : List Gesture),
      (x ∈ l.foldl (fun acc g => if g ∈ acc then acc else acc ++ [g]) acc) ↔
        x ∈ acc ∨ x ∈ l := by
  intro l
  induction l with
  | nil => intro acc; simp [List.foldl]
  | cons g t ih =>
    intro acc
    by_cases hg : g ∈ acc
    · simp only [List.foldl, if_pos hg, ih, List.mem_cons]
      constructor
      · rintro (h | h)
        · exact Or.inl h
        · exact Or.inr (Or.inr h)
      · rintro (h | rfl | h)
        · exact Or.inl h
        · exact Or.inl hg
        · exact Or.inr h
    · simp only [List.foldl, if_neg hg, ih, List.mem_append,
        List.mem_singleton, List.mem_cons]
      tauto

lemma mem_keysInOrder (x : Gesture) (buf : List Gesture) :
    x ∈ keysInOrder buf ↔ x ∈ buf := by
  unfold keysInOrder
  rw [mem_keysFold]
  simp

lemma pickMaxKey_spec (cnt : Gesture → ℕ) :
    ∀ (l : List Gesture) (a : Gesture),
      ∃ pre post, a :: l = pre ++ pickMaxKey cnt a l :: post ∧
        (∀ x ∈ a :: l, cnt x ≤ cnt (pickMaxKey cnt a l)) ∧
        (∀ x ∈ post, cnt x < cnt (pickMaxKey cnt a l)) := by
  intro l
  induction l with
  | nil =>
    intro a
    refine ⟨[], [], rfl, ?_, by simp⟩
    intro x hx
    have hxa : x = a := by simpa using hx
    simp [hxa, pickMaxKey]
  | cons b t ih =>
    intro a
    by_cases hab : cnt b < cnt a
    · have hr : pickMaxKey cnt a (b :: t) = pickMaxKey cnt a t := by
        simp [pickMaxKey, List.foldl, hab]
      obtain ⟨pre, post, heq, hmax, hpost⟩ := ih a
      rw [hr]
      have hma : cnt a ≤ cnt (pickMaxKey cnt a t) :=
        hmax a (List.mem_cons_self a t)
      cases pre with
      | nil =>
        have ha : a = pickMaxKey cnt a t := by
          have := heq
          simp only [List.nil_append, List.cons.injEq] at this
          exact this.1
        have ht : t = post := by
          have := heq
          simp only [List.nil_append, List.cons.injEq] at this
          exact this.2
        refine ⟨[], b :: t, by simp [← ha], ?_, ?_⟩
        · intro x hx
          rcases List.mem_cons.mp hx with rfl | hx
          · exact hma
          · rcases List.mem_cons.mp hx with rfl | hx
            · exact le_of_lt (lt_of_lt_of_le hab hma)
            · exact hmax x (List.mem_cons_of_mem a hx)
        · intro x hx
          rcases List.mem_cons.mp hx with rfl | hx
          · exact lt_of_lt_of_le hab hma
          · exact hpost x (ht ▸ hx)
      | cons p pre₂ =>
        have hp : a = p := by
          have := heq
          simp only [List.cons_append, List.cons.injEq] at this
          exact this.1
        have ht : t = pre₂ ++ pickMaxKey cnt a t :: post := by
          have := heq
          simp only [List.cons_append, List.cons.injEq] at this
          exact this.2
        refine ⟨a :: b :: pre₂, post,
          by simpa using congrArg (List.cons a) (congrArg (List.cons b) ht),
          ?_, hpost⟩
        intro x hx
        rcases List.mem_cons.mp hx with rfl | hx
        · exact hma
        · rcases List.mem_cons.mp hx with rfl | hx
          · exact le_of_lt (lt_of_lt_of_le hab hma)
          · exact hmax x (List.mem_cons_of_mem a hx)
    · have hr : pickMaxKey cnt a (b :: t) = pickMaxKey cnt b t := by
        simp [pickMaxKey, List.foldl, hab]
      obtain ⟨pre, post, heq, hmax, hpost⟩ := ih b
      rw [hr]
      refine ⟨a :: pre, post, by simp [← heq], ?_, hpost⟩
      intro x hx
      rcases List.mem_cons.mp hx with rfl | hx
      · calc cnt x ≤ cnt b := le_of_not_lt hab
          _ ≤ cnt (pickMaxKey cnt b t) := hmax b (List.mem_cons_self b t)
      · exact hmax x hx

/-- C7: the stabilizer keeps a rolling buffer of capacity exactly 4
(oldest evicted on overflow), and `getStableGesture` returns the buffer
label with the greatest count, ties resolved by the insertion order of the
key space (the last-inserted key among those of maximal count wins). -/
theorem stabilizer_buffer_majority (buf : List Gesture) (raw : Gesture) :
    (buf.length ≤ BUFFER_SIZE → (pushGestureBuffer buf raw).length ≤ BUFFER_SIZE) ∧
    (buf.length = BUFFER_SIZE → pushGestureBuffer buf raw = buf.tail ++ [raw]) ∧
    (∀ m, getStableGesture buf = some m →
      m ∈ buf ∧ (∀ x ∈ buf, buf.count x ≤ buf.count m) ∧
      ∃ pre post, keysInOrder buf = pre ++ m :: post ∧
        ∀ x ∈ post, buf.count x < buf.count m) := by
  refine ⟨?_, ?_, ?_⟩
  · intro hle
    simp only [pushGestureBuffer, BUFFER_SIZE] at *
    split
    · simp only [List.length_tail, List.length_append, List.length_singleton]
      omega
    · rename_i h
      simp only [List.length_append, List.length_singleton] at h ⊢
      omega
  · intro hlen
    simp only [BUFFER_SIZE] at hlen
    simp only [pushGestureBuffer, BUFFER_SIZE]
    split
    · cases buf with
      | nil => simp at hlen
      | cons y ys => simp
    · rename_i h
      exfalso
      apply h
      simp [hlen]
  · intro m hm
    unfold getStableGesture at hm
    rcases hk : keysInOrder buf with _ | ⟨k, ks⟩
    · rw [hk] at hm; simp at hm
    · rw [hk] at hm
      simp only [Option.some.injEq] at hm
      obtain ⟨pre, post, heq, hmax, hpost⟩ :=
        pickMaxKey_spec (fun g => buf.count g) ks k
      rw [hm] at heq hmax hpost
      have hmemkeys : m ∈ keysInOrder buf := by
        rw [hk, heq]
        exact List.mem_append_right pre (List.mem_cons_self m post)
      refine ⟨(mem_keysInOrder m buf).mp hmemkeys, ?_, pre, post, ?_, hpost⟩
      · intro x hx
        have hxk : x ∈ k :: ks := by
          rw [← hk]
          exact (mem_keysInOrder x buf).mpr hx
        exact hmax x hxk
      · exact heq

/-- A concrete buffer used to witness C7. -/
def sampleBuffer : List Gesture :=
  [Gesture.PINCH, Gesture.NONE, Gesture.PINCH, Gesture.FIST]

/-- Witness for C7 at a concrete buffer: the hypotheses of
`stabilizer_buffer_majority` hold and evaluate there. -/
theorem stabilizer_buffer_majority_witness :
    (pushGestureBuffer sampleBuffer Gesture.OPEN).length ≤ BUFFER_SIZE ∧
    pushGestureBuffer sampleBuffer Gesture.OPEN =
      [Gesture.NONE, Gesture.PINCH, Gesture.FIST, Gesture.OPEN] ∧
    Gesture.PINCH ∈ sampleBuffer ∧
    sampleBuffer.count Gesture.FIST ≤ sampleBuffer.count Gesture.PINCH :=
  ⟨(stabilizer_buffer_majority sampleBuffer Gesture.OPEN).1 (by decide),
   ((stabilizer_buffer_majority sampleBuffer Gesture.OPEN).2.1 (by decide)).trans
     (by decide),
   ((stabilizer_buffer_majority sampleBuffer Gesture.OPEN).2.2 Gesture.PINCH
     (by decide)).1,
   (((stabilizer_buffer_majority sampleBuffer Gesture.OPEN).2.2 Gesture.PINCH
     (by decide)).2.1) Gesture.FIST (by decide)⟩

/-! ## Gesture stabilizer timing (`handleGestureUpdate`, lines 397-427)

State fields and constants from the `GameEngine` class:
`PINCH_REQUIRED_HOLD = 80`, `FIST_REQUIRED_HOLD = 40` (lines 92, 94), the
transition cooldown of 50ms (line 423).  `handleGestureUpdate` is split
into `newPinchStart` / `newFistStart` (the hold-timer updates: the timer
is (re)started at `now` when its raw gesture arrives with timer 0, and
reset to 0 whenever the raw gesture differs) and `processedGesture`
(the hold-gated effective gesture).  The `onGestureEnter` call of the
accept branch is exposed as the `enter : Option Gesture` output. -/

def PINCH_REQUIRED_HOLD : ℤ := 80
def FIST_REQUIRED_HOLD : ℤ := 40

structure GestureState where
  currentGesture : Gesture
  pinchStartTime : ℤ
  fistStartTime : ℤ
  gestureCooldown : ℤ
deriving DecidableEq, Repr

def initGestureState : GestureState :=
  { currentGesture := Gesture.NONE, pinchStartTime := 0,
    fistStartTime := 0, gestureCooldown := 0 }

def newPinchStart (s : GestureState) (g : Gesture) (now : ℤ) : ℤ :=
  if g = Gesture.PINCH then
    (if s.pinchStartTime = 0 then now else s.pinchStartTime)
  else 0

def newFistStart (s : GestureState) (g : Gesture) (now : ℤ) : ℤ :=
  if g = Gesture.FIST then
    (if s.fistStartTime = 0 then now else s.fistStartTime)
  else 0

def processedGesture (s : GestureState) (g : Gesture) (now : ℤ) : Gesture :=
  let afterPinch :=
    if g = Gesture.PINCH ∧ now - newPinchStart s g now < PINCH_REQUIRED_HOLD then
      (if s.currentGesture = Gesture.PINCH then Gesture.PINCH else Gesture.NONE)
    else g
  if g = Gesture.FIST ∧ now - newFistStart s g now < FIST_REQUIRED_HOLD then
    (if s.currentGesture = Gesture.FIST then Gesture.FIST else Gesture.NONE)
  else afterPinch

structure StepOut where
  state : GestureState
  enter : Option Gesture
deriving DecidableEq, Repr

def handleGestureUpdate (s : GestureState) (g : Gesture) (now : ℤ) : StepOut :=
  let ps := newPinchStart s g now
  let fs := newFistStart s g now
  let processed := processedGesture s g now
  if s.currentGesture ≠ processed ∧ s.gestureCooldown < now then
    { state := { currentGesture := processed, pinchStartTime := ps,
                 fistStartTime := fs, gestureCooldown := now + 50 },
      enter := some processed }
  else
    { state := { s with pinchStartTime := ps, fistStartTime := fs },
      enter := none }

structure RunStep where
  pre : GestureState
  gesture : Gesture
  time : ℤ
  post : GestureState
  enter : Option Gesture
deriving DecidableEq, Repr

def runGestures : GestureState → List (Gesture × ℤ) → List RunStep
  | _, [] => []
  | s, (g, t) :: rest =>
      let o := handleGestureUpdate s g t
      { pre := s, gesture := g, time := t, post := o.state, enter := o.enter } ::
        runGestures o.state rest

def acceptTimes : GestureState → List (Gesture × ℤ) → List ℤ
  | _, [] => []
  | s, (g, t) :: rest =>
      let o := handleGestureUpdate s g t
      if o.enter.isSome then t :: acceptTimes o.state rest
      else acceptTimes o.state rest

-- step lemmas
lemma step_enter_iff (s : GestureState) (g : Gesture) (now : ℤ) :
    (handleGestureUpdate s g now).enter.isSome ↔
      (handleGestureUpdate s g now).state.currentGesture ≠ s.currentGesture := by
  simp only [handleGestureUpdate]
  split
  · rename_i h
    simp only [Option.isSome_some, true_iff]
    exact fun hc => h.1 hc.symm
  · simp

lemma step_cooldown_accept (s : GestureState) (g : Gesture) (now : ℤ)
    (h : (handleGestureUpdate s g now).enter.isSome) :
    s.gestureCooldown < now ∧
      (handleGestureUpdate s g now).state.gestureCooldown = now + 50 := by
  simp only [handleGestureUpdate] at *
  split at h
  · rename_i hc
    rw [if_pos hc]
    exact ⟨hc.2, rfl⟩
  · simp at h

lemma step_cooldown_mono (s : GestureState) (g : Gesture) (now : ℤ) :
    s.gestureCooldown ≤ (handleGestureUpdate s g now).state.gestureCooldown := by
  simp only [handleGestureUpdate]
  split
  · rename_i hc
    have h2 := hc.2
    simp
    omega
  · simp

lemma acceptTimes_gt (l : List (Gesture × ℤ)) :
    ∀ (s : GestureState), ∀ x ∈ acceptTimes s l, s.gestureCooldown < x := by
  induction l with
  | nil => intro s x hx; simp [acceptTimes] at hx
  | cons e rest ih =>
    intro s x hx
    obtain ⟨g, t⟩ := e
    simp only [acceptTimes] at hx
    by_cases hacc : (handleGestureUpdate s g t).enter.isSome
    · rw [if_pos hacc] at hx
      rcases List.mem_cons.mp hx with heq | hx
      · rw [heq]
        exact (step_cooldown_accept s g t hacc).1
      · have h1 := ih (handleGestureUpdate s g t).state x hx
        have h2 := step_cooldown_mono s g t
        omega
    · rw [if_neg hacc] at hx
      have h1 := ih (handleGestureUpdate s g t).state x hx
      have h2 := step_cooldown_mono s g t
      omega

lemma acceptTimes_pairwise (l : List (Gesture × ℤ)) :
    ∀ (s : GestureState), List.Pairwise (fun a b => a + 50 < b) (acceptTimes s l) := by
  induction l with
  | nil => intro s; simp [acceptTimes]
  | cons e rest ih =>
    intro s
    obtain ⟨g, t⟩ := e
    simp only [acceptTimes]
    by_cases hacc : (handleGestureUpdate s g t).enter.isSome
    · rw [if_pos hacc]
      refine List.Pairwise.cons ?_ (ih _)
      intro x hx
      have h1 := acceptTimes_gt rest (handleGestureUpdate s g t).state x hx
      have h2 := (step_cooldown_accept s g t hacc).2
      omega
    · rw [if_neg hacc]
      exact ih _

lemma runGestures_enter_iff :
    ∀ (l : List (Gesture × ℤ)) (s : GestureState),
      ∀ st ∈ runGestures s l,
        (st.enter.isSome ↔ st.post.currentGesture ≠ st.pre.currentGesture) := by
  intro l
  induction l with
  | nil => intro s st hst; simp [runGestures] at hst
  | cons e rest ih =>
    intro s st hst
    obtain ⟨g, t⟩ := e
    simp only [runGestures, List.mem_cons] at hst
    rcases hst with rfl | hst
    · exact step_enter_iff s g t
    · exact ih _ st hst

/-- C5: for every sequence of stabilizer updates, the accepted changes of
the current gesture are pairwise more than 50ms apart (the transition
cooldown), and the enter event fires exactly when (and only when) the
current gesture actually changes — exactly once per accepted change. -/
theorem gesture_cooldown_and_enter (s : GestureState) (l : List (Gesture × ℤ)) :
    List.Pairwise (fun a b => a + 50 < b) (acceptTimes s l) ∧
    ∀ st ∈ runGestures s l,
      (st.enter.isSome ↔ st.post.currentGesture ≠ st.pre.currentGesture) :=
  ⟨acceptTimes_pairwise l s, runGestures_enter_iff l s⟩

/-- Witness for C5 at a concrete one-step stream: an OPEN update at t=100
from the initial state is an accepted change with its enter event. -/
theorem gesture_cooldown_and_enter_witness :
    List.Pairwise (fun a b => a + 50 < b)
      (acceptTimes initGestureState [(Gesture.OPEN, 100)]) ∧
    (({ pre := initGestureState, gesture := Gesture.OPEN, time := 100,
        post := { currentGesture := Gesture.OPEN, pinchStartTime := 0,
                  fistStartTime := 0, gestureCooldown := 150 },
        enter := some Gesture.OPEN } : RunStep).enter.isSome ↔
      ({ currentGesture := Gesture.OPEN, pinchStartTime := 0,
         fistStartTime := 0, gestureCooldown := 150 } : GestureState).currentGesture ≠
        initGestureState.currentGesture) :=
  ⟨(gesture_cooldown_and_enter initGestureState [(Gesture.OPEN, 100)]).1,
   (gesture_cooldown_and_enter initGestureState [(Gesture.OPEN, 100)]).2 _ (by decide)⟩

lemma pinch_gated_step (s : GestureState) (t₀ now : ℤ)
    (hcur : s.currentGesture = Gesture.NONE)
    (hps : s.pinchStartTime = 0 ∨ t₀ ≤ s.pinchStartTime)
    (h1 : t₀ ≤ now) (h2 : now < t₀ + 80) :
    (handleGestureUpdate s Gesture.PINCH now).enter = none ∧
    (handleGestureUpdate s Gesture.PINCH now).state.currentGesture = Gesture.NONE ∧
    ((handleGestureUpdate s Gesture.PINCH now).state.pinchStartTime = 0 ∨
      t₀ ≤ (handleGestureUpdate s Gesture.PINCH now).state.pinchStartTime) := by
  have hgate : now - newPinchStart s Gesture.PINCH now < PINCH_REQUIRED_HOLD := by
    unfold newPinchStart PINCH_REQUIRED_HOLD
    by_cases hz : s.pinchStartTime = 0
    · simp [hz]
    · rcases hps with hps | hps
      · exact absurd hps hz
      · simp [if_neg hz]
        omega
  have hproc : processedGesture s Gesture.PINCH now = Gesture.NONE := by
    unfold processedGesture
    simp [hgate, hcur]
  have hstart : t₀ ≤ newPinchStart s Gesture.PINCH now := by
    unfold newPinchStart
    by_cases hz : s.pinchStartTime = 0
    · simp [hz]; omega
    · rcases hps with hps | hps
      · exact absurd hps hz
      · simp [if_neg hz]; omega
  simp only [handleGestureUpdate, hproc]
  rw [if_neg (by simp [hcur])]
  exact ⟨rfl, hcur, Or.inr hstart⟩

lemma pinch_stream_no_enter :
    ∀ (ts : List ℤ) (s : GestureState) (t₀ : ℤ),
      s.currentGesture = Gesture.NONE →
      (s.pinchStartTime = 0 ∨ t₀ ≤ s.pinchStartTime) →
      (∀ t ∈ ts, t₀ ≤ t ∧ t < t₀ + 80) →
      ∀ st ∈ runGestures s (ts.map fun t => (Gesture.PINCH, t)), st.enter = none := by
  intro ts
  induction ts with
  | nil => intro s t₀ _ _ _ st hst; simp [runGestures] at hst
  | cons t rest ih =>
    intro s t₀ hcur hps hts st hst
    have hbound := hts t (List.mem_cons_self t rest)
    obtain ⟨he, hc, hp⟩ := pinch_gated_step s t₀ t hcur hps hbound.1 hbound.2
    simp only [List.map_cons, runGestures, List.mem_cons] at hst
    rcases hst with rfl | hst
    · exact he
    · exact ih (handleGestureUpdate s Gesture.PINCH t).state t₀ hc hp
        (fun x hx => hts x (List.mem_cons_of_mem t hx)) st hst

lemma fist_gated_step (s : GestureState) (t₀ now : ℤ)
    (hcur : s.currentGesture = Gesture.NONE)
    (hfs : s.fistStartTime = 0 ∨ t₀ ≤ s.fistStartTime)
    (h1 : t₀ ≤ now) (h2 : now < t₀ + 40) :
    (handleGestureUpdate s Gesture.FIST now).enter = none ∧
    (handleGestureUpdate s Gesture.FIST now).state.currentGesture = Gesture.NONE ∧
    ((handleGestureUpdate s Gesture.FIST now).state.fistStartTime = 0 ∨
      t₀ ≤ (handleGestureUpdate s Gesture.FIST now).state.fistStartTime) := by
  have hgate : now - newFistStart s Gesture.FIST now < FIST_REQUIRED_HOLD := by
    unfold newFistStart FIST_REQUIRED_HOLD
    by_cases hz : s.fistStartTime = 0
    · simp [hz]
    · rcases hfs with hfs | hfs
      · exact absurd hfs hz
      · simp [if_neg hz]
        omega
  have hproc : processedGesture s Gesture.FIST now = Gesture.NONE := by
    unfold processedGesture
    simp [hgate, hcur]
  have hstart : t₀ ≤ newFistStart s Gesture.FIST now := by
    unfold newFistStart
    by_cases hz : s.fistStartTime = 0
    · simp [hz]; omega
    · rcases hfs with hfs | hfs
      · exact absurd hfs hz
      · simp [if_neg hz]; omega
  simp only [handleGestureUpdate, hproc]
  rw [if_neg (by simp [hcur])]
  exact ⟨rfl, hcur, Or.inr hstart⟩

lemma fist_stream_no_enter :
    ∀ (ts : List ℤ) (s : GestureState) (t₀ : ℤ),
      s.currentGesture = Gesture.NONE →
      (s.fistStartTime = 0 ∨ t₀ ≤ s.fistStartTime) →
      (∀ t ∈ ts, t₀ ≤ t ∧ t < t₀ + 40) →
      ∀ st ∈ runGestures s (ts.map fun t => (Gesture.FIST, t)), st.enter = none := by
  intro ts
  induction ts with
  | nil => intro s t₀ _ _ _ st hst; simp [runGestures] at hst
  | cons t rest ih =>
    intro s t₀ hcur hfs hts st hst
    have hbound := hts t (List.mem_cons_self t rest)
    obtain ⟨he, hc, hp⟩ := fist_gated_step s t₀ t hcur hfs hbound.1 hbound.2
    simp only [List.map_cons, runGestures, List.mem_cons] at hst
    rcases hst with rfl | hst
    · exact he
    · exact ih (handleGestureUpdate s Gesture.FIST t).state t₀ hc hp
        (fun x hx => hts x (List.mem_cons_of_mem t hx)) st hst

/-- C3: hold verification.  While the required hold (80ms for PINCH, 40ms
for FIST) has not elapsed since the raw gesture first appeared, the
effective (processed) gesture equals the previous current gesture if it
matches the incoming one, else NONE; consequently a PINCH stream shorter
than 80ms starting from current gesture NONE produces no enter event at
all (in particular no PINCH enter), and likewise a FIST stream shorter
than 40ms. -/
theorem hold_verification_gating :
    (∀ (s : GestureState) (now : ℤ),
      now - (if s.pinchStartTime = 0 then now else s.pinchStartTime) <
          PINCH_REQUIRED_HOLD →
        processedGesture s Gesture.PINCH now =
          (if s.currentGesture = Gesture.PINCH then Gesture.PINCH else Gesture.NONE)) ∧
    (∀ (s : GestureState) (now : ℤ),
      now - (if s.fistStartTime = 0 then now else s.fistStartTime) <
          FIST_REQUIRED_HOLD →
        processedGesture s Gesture.FIST now =
          (if s.currentGesture = Gesture.FIST then Gesture.FIST else Gesture.NONE)) ∧
    (∀ (ts : List ℤ) (s : GestureState) (t₀ : ℤ),
      s.currentGesture = Gesture.NONE →
      (s.pinchStartTime = 0 ∨ t₀ ≤ s.pinchStartTime) →
      (∀ t ∈ ts, t₀ ≤ t ∧ t < t₀ + 80) →
      ∀ st ∈ runGestures s (ts.map fun t => (Gesture.PINCH, t)), st.enter = none) ∧
    (∀ (ts : List ℤ) (s : GestureState) (t₀ : ℤ),
      s.currentGesture = Gesture.NONE →
      (s.fistStartTime = 0 ∨ t₀ ≤ s.fistStartTime) →
      (∀ t ∈ ts, t₀ ≤ t ∧ t < t₀ + 40) →
      ∀ st ∈ runGestures s (ts.map fun t => (Gesture.FIST, t)), st.enter = none) := by
  refine ⟨?_, ?_, pinch_stream_no_enter, fist_stream_no_enter⟩
  · intro s now h
    unfold processedGesture
    rw [if_neg (by simp), if_pos ⟨rfl, by simpa [newPinchStart] using h⟩]
  · intro s now h
    unfold processedGesture
    rw [if_pos ⟨rfl, by simpa [newFistStart] using h⟩]

/-- Witness for C3 at concrete states and streams: the 79ms PINCH stream
and the 39ms FIST stream leave every step's enter event empty. -/
theorem hold_verification_gating_witness :
    processedGesture initGestureState Gesture.PINCH 100 = Gesture.NONE ∧
    processedGesture initGestureState Gesture.FIST 100 = Gesture.NONE ∧
    ({ pre := initGestureState, gesture := Gesture.PINCH, time := 1000,
       post := { currentGesture := Gesture.NONE, pinchStartTime := 1000,
                 fistStartTime := 0, gestureCooldown := 0 },
       enter := none } : RunStep).enter = none ∧
    ({ pre := initGestureState, gesture := Gesture.FIST, time := 1000,
       post := { currentGesture := Gesture.NONE, pinchStartTime := 0,
                 fistStartTime := 1000, gestureCooldown := 0 },
       enter := none } : RunStep).enter = none := by
  refine ⟨?_, ?_, ?_, ?_⟩
  · exact (hold_verification_gating.1 initGestureState 100 (by decide)).trans (by decide)
  · exact (hold_verification_gating.2.1 initGestureState 100 (by decide)).trans (by decide)
  · exact hold_verification_gating.2.2.1 [1000, 1040, 1079] initGestureState 1000
      rfl (Or.inl rfl) (by decide) _ (by decide)
  · exact hold_verification_gating.2.2.2 [1000, 1020, 1039] initGestureState 1000
      rfl (Or.inl rfl) (by decide) _ (by decide)

/-! ## Safety placement resolver (`resolveConfirmedSafety`, lines 653-690)

Constants from `safetyConfig` (lines 71-80), `ringRadius`/`ringCenterZ`
(lines 124-125) and `camera.near = 0.1` (line 140).  The `while` loop is
embedded as fuel recursion with `fuel = 40 - pushCount`; the loop body is
translated branch for branch, and the floor-clamp branch additionally
records the instrumentation flag `clamped`.  The carousel test
`|hypot − ringRadius| < safetyMargin` is embedded in exact squared form
(valid since `ringRadius − safetyMargin = 7.5 ≥ 0`), and
`Math.abs(pos.y) < 2.0` as the two strict inequalities.  The
pose-dependent intersection test is a function of the candidate distance
alone once the pose is fixed, so the loop is stated over an arbitrary
`check : ℚ → Bool` and instantiated with the concrete geometry. -/

structure Vec3 where
  x : ℚ
  y : ℚ
  z : ℚ
deriving DecidableEq, Repr

def vadd (a b : Vec3) : Vec3 := ⟨a.x + b.x, a.y + b.y, a.z + b.z⟩

def vsmul (c : ℚ) (a : Vec3) : Vec3 := ⟨c * a.x, c * a.y, c * a.z⟩

def addScaledVector (a v : Vec3) (c : ℚ) : Vec3 := vadd a (vsmul c v)

def distToSq (a b : Vec3) : ℚ :=
  (a.x - b.x) ^ 2 + (a.y - b.y) ^ 2 + (a.z - b.z) ^ 2

def baseConfirmDistance : ℚ := 85 / 10
def yOffset : ℚ := 2 / 10
def safetyMargin : ℚ := 45 / 10
def nearMargin : ℚ := 8 / 10
def pushOutStep : ℚ := 1 / 10
def ringRadius : ℚ := 12
def ringCenterZ : ℚ := 22
def cameraNear : ℚ := 1 / 10
def minSafeDist : ℚ := cameraNear + nearMargin

def checkIntersectionWithCarousel (pos : Vec3) : Bool :=
  let dSq := distToSq pos ⟨0, 0, ringCenterZ⟩
  (((ringRadius - safetyMargin) ^ 2 < dSq ∧ dSq < (ringRadius + safetyMargin) ^ 2) ∧
    (pos.y < 2 ∧ -2 < pos.y))

structure SafetyResult where
  dist : ℚ
  pushCount : ℕ
  intersected : Bool
  clamped : Bool
deriving DecidableEq, Repr

def resolveSafetyLoop (check : ℚ → Bool) : ℚ → ℕ → ℕ → SafetyResult
  | dist, pushCount, 0 => ⟨dist, pushCount, true, false⟩
  | dist, pushCount, fuel + 1 =>
      let intersected := check dist
      if dist ≤ minSafeDist then
        ⟨minSafeDist, pushCount, false, true⟩
      else if intersected then
        resolveSafetyLoop check (dist - pushOutStep) (pushCount + 1) fuel
      else
        ⟨dist, pushCount, false, false⟩

def resolveConfirmedSafety (camPos camForward camUp : Vec3) : SafetyResult :=
  resolveSafetyLoop
    (fun d => checkIntersectionWithCarousel
      (addScaledVector (addScaledVector camPos camForward d) camUp yOffset))
    baseConfirmDistance 0 40

lemma resolveSafetyLoop_pushCount (check : ℚ → Bool) :
    ∀ (fuel : ℕ) (dist : ℚ) (pc : ℕ),
      (resolveSafetyLoop check dist pc fuel).pushCount ≤ pc + fuel := by
  intro fuel
  induction fuel with
  | zero => intro dist pc; simp [resolveSafetyLoop]
  | succ n ih =>
    intro dist pc
    simp only [resolveSafetyLoop]
    split
    · simp
    · split
      · have := ih (dist - pushOutStep) (pc + 1)
        omega
      · simp

lemma resolveSafetyLoop_dist_ge (check : ℚ → Bool) :
    ∀ (fuel : ℕ) (dist : ℚ) (pc : ℕ),
      min minSafeDist (dist - fuel * pushOutStep) ≤
        (resolveSafetyLoop check dist pc fuel).dist := by
  intro fuel
  induction fuel with
  | zero =>
    intro dist pc
    simp [resolveSafetyLoop]
  | succ n ih =>
    intro dist pc
    simp only [resolveSafetyLoop]
    split
    · simp
    · split
      · have h := ih (dist - pushOutStep) (pc + 1)
        have harith : min minSafeDist (dist - (n + 1 : ℕ) * pushOutStep) ≤
            min minSafeDist ((dist - pushOutStep) - (n : ℕ) * pushOutStep) :=
          min_le_min le_rfl (le_of_eq (by push_cast; ring))
        exact le_trans harith h
      · have hp : (0 : ℚ) ≤ pushOutStep := by norm_num [pushOutStep]
        have hstep : (0 : ℚ) ≤ ((n + 1 : ℕ) : ℚ) * pushOutStep :=
          mul_nonneg (by positivity) hp
        have hd : dist - ((n + 1 : ℕ) : ℚ) * pushOutStep ≤ dist := by linarith
        exact le_trans (min_le_right _ _) hd

lemma resolveSafetyLoop_no_clamp (check : ℚ → Bool) :
    ∀ (fuel : ℕ) (dist : ℚ) (pc : ℕ),
      minSafeDist < dist - fuel * pushOutStep →
      (resolveSafetyLoop check dist pc fuel).clamped = false ∧
        dist - fuel * pushOutStep ≤ (resolveSafetyLoop check dist pc fuel).dist := by
  intro fuel
  induction fuel with
  | zero =>
    intro dist pc h
    simp [resolveSafetyLoop]
  | succ n ih =>
    intro dist pc h
    have hp : (0 : ℚ) ≤ pushOutStep := by norm_num [pushOutStep]
    have hstep : (0 : ℚ) ≤ ((n + 1 : ℕ) : ℚ) * pushOutStep :=
      mul_nonneg (by positivity) hp
    have hnlt : ¬dist ≤ minSafeDist := by
      push_cast at h hstep
      linarith
    simp only [resolveSafetyLoop]
    rw [if_neg hnlt]
    split
    · have harg : minSafeDist < (dist - pushOutStep) - (n : ℕ) * pushOutStep := by
        push_cast at h ⊢
        linarith
      have hrec := ih (dist - pushOutStep) (pc + 1) harg
      refine ⟨hrec.1, ?_⟩
      have h2 : (dist - pushOutStep) - (n : ℕ) * pushOutStep ≤
          (resolveSafetyLoop check (dist - pushOutStep) (pc + 1) n).dist := hrec.2
      push_cast at h2 ⊢
      linarith
    · refine ⟨rfl, ?_⟩
      push_cast at hstep ⊢
      linarith

lemma resolveSafetyLoop_intersected (check : ℚ → Bool) :
    ∀ (fuel : ℕ) (dist : ℚ) (pc : ℕ),
      (resolveSafetyLoop check dist pc fuel).intersected = true →
      (resolveSafetyLoop check dist pc fuel).pushCount = pc + fuel := by
  intro fuel
  induction fuel with
  | zero => intro dist pc _; simp [resolveSafetyLoop]
  | succ n ih =>
    intro dist pc h
    simp only [resolveSafetyLoop] at h ⊢
    split at h
    · simp at h
    · split at h
      · rename_i h1 h2
        rw [if_neg h1, if_pos h2]
        have := ih (dist - pushOutStep) (pc + 1) h
        omega
      · simp at h

/-- C2: for every candidate-intersection predicate (covering every camera
pose and ring configuration; the concrete pose-dependent predicate of the
source is the given instantiation) the safety resolver terminates with a
returned distance ≥ near-clip + 0.8 (`minSafeDist`), an iteration count
that never exceeds 40, and when it exits still flagged intersected the
iteration cap is exactly exhausted — a best-effort placement with the
diagnostic flag set, not a failure. -/
theorem resolveConfirmedSafety_bounds (check : ℚ → Bool)
    (camPos camForward camUp : Vec3) :
    (minSafeDist ≤ (resolveSafetyLoop check baseConfirmDistance 0 40).dist ∧
      (resolveSafetyLoop check baseConfirmDistance 0 40).pushCount ≤ 40 ∧
      ((resolveSafetyLoop check baseConfirmDistance 0 40).intersected = true →
        (resolveSafetyLoop check baseConfirmDistance 0 40).pushCount = 40)) ∧
    (minSafeDist ≤ (resolveConfirmedSafety camPos camForward camUp).dist ∧
      (resolveConfirmedSafety camPos camForward camUp).pushCount ≤ 40 ∧
      ((resolveConfirmedSafety camPos camForward camUp).intersected = true →
        (resolveConfirmedSafety camPos camForward camUp).pushCount = 40)) := by
  have hgen : ∀ (c : ℚ → Bool),
      minSafeDist ≤ (resolveSafetyLoop c baseConfirmDistance 0 40).dist ∧
      (resolveSafetyLoop c baseConfirmDistance 0 40).pushCount ≤ 40 ∧
      ((resolveSafetyLoop c baseConfirmDistance 0 40).intersected = true →
        (resolveSafetyLoop c baseConfirmDistance 0 40).pushCount = 40) := by
    intro c
    refine ⟨?_, ?_, ?_⟩
    · have h := resolveSafetyLoop_dist_ge c 40 baseConfirmDistance 0
      have hmin : min minSafeDist (baseConfirmDistance - (40 : ℕ) * pushOutStep) =
          minSafeDist := by
        unfold minSafeDist cameraNear nearMargin baseConfirmDistance pushOutStep
        norm_num
      rw [hmin] at h
      exact h
    · simpa using resolveSafetyLoop_pushCount c 40 baseConfirmDistance 0
    · intro h
      simpa using resolveSafetyLoop_intersected c 40 baseConfirmDistance 0 h
  exact ⟨hgen check, hgen _⟩

lemma alwaysTrue_run_intersected :
    (resolveSafetyLoop (fun _ => true) baseConfirmDistance 0 40).intersected = true := by
  norm_num [resolveSafetyLoop, minSafeDist, cameraNear, nearMargin,
    baseConfirmDistance, pushOutStep]

/-- Witness for C2: the always-intersecting predicate exhausts the cap. -/
theorem resolveConfirmedSafety_bounds_witness :
    (resolveSafetyLoop (fun _ => true) baseConfirmDistance 0 40).intersected = true ∧
    (resolveSafetyLoop (fun _ => true) baseConfirmDistance 0 40).pushCount = 40 ∧
    minSafeDist ≤ (resolveSafetyLoop (fun _ => true) baseConfirmDistance 0 40).dist :=
  ⟨alwaysTrue_run_intersected,
   ((resolveConfirmedSafety_bounds (fun _ => true) ⟨0, 0, 0⟩ ⟨0, 0, 1⟩ ⟨0, 1, 0⟩).1).2.2
     alwaysTrue_run_intersected,
   ((resolveConfirmedSafety_bounds (fun _ => true) ⟨0, 0, 0⟩ ⟨0, 0, 1⟩ ⟨0, 1, 0⟩).1).1⟩

/-- C9: with the configured constants (base 8.5, step 0.1, cap 40,
near 0.1, margin 0.8) the resolver's distance is always ≥ 8.5 − 40×0.1 =
4.5, strictly above the floor 0.9, so the floor-clamping force-accept
branch is unreachable (the instrumentation flag `clamped` is always
false). -/
theorem resolveConfirmedSafety_floor_unreachable (check : ℚ → Bool)
    (camPos camForward camUp : Vec3) :
    ((45 : ℚ) / 10 ≤ (resolveSafetyLoop check baseConfirmDistance 0 40).dist ∧
      (resolveSafetyLoop check baseConfirmDistance 0 40).clamped = false) ∧
    ((45 : ℚ) / 10 ≤ (resolveConfirmedSafety camPos camForward camUp).dist ∧
      (resolveConfirmedSafety camPos camForward camUp).clamped = false) := by
  have hgen : ∀ (c : ℚ → Bool),
      (45 : ℚ) / 10 ≤ (resolveSafetyLoop c baseConfirmDistance 0 40).dist ∧
      (resolveSafetyLoop c baseConfirmDistance 0 40).clamped = false := by
    intro c
    have hlt : minSafeDist < baseConfirmDistance - (40 : ℕ) * pushOutStep := by
      unfold minSafeDist cameraNear nearMargin baseConfirmDistance pushOutStep
      norm_num
    have h := resolveSafetyLoop_no_clamp c 40 baseConfirmDistance 0 hlt
    refine ⟨?_, h.1⟩
    have heq : baseConfirmDistance - (40 : ℕ) * pushOutStep = (45 : ℚ) / 10 := by
      unfold baseConfirmDistance pushOutStep
      norm_num
    rw [heq] at h
    exact h.2
  exact ⟨hgen check, hgen _⟩

/-! ## Interaction state machine and deck bookkeeping

`GameEngine` fields `state`, `deck`, `history`, `sessionDrawnCount`,
`activeCardData`, `isReversed`, with the operations `tryGrab` (lines
450-471), `confirmCard` (lines 525-540), `triggerDisintegrate` (lines
542-560), `onGestureEnter` (lines 429-439) and `resetDeck` (lines
724-735).  `TAROT_DECK` keeps each card's numeric identity and English
name; the display-only fields (Chinese name, meaning texts, image URLs)
are omitted, as is the mutable `generatedImageUrl` artwork reference — no
claim concerns them.  The Fisher-Yates shuffle performed at init and on
reset permutes the deck using `Math.random`; it is not modelled, and every
observable below (lengths, membership, counts) is permutation-invariant.
The raycast hit of `tryGrab` is modelled as an optional index into the
current deck order (the ring is rebuilt from `this.deck` after every
grab and reset, so ring hits are exactly deck members), and the random
orientation as an explicit coin.  `reachPreview` models the automatic
GRABBING → PREVIEW capture of `updateCardTransform`, `disintegrateDone`
the 2.5s timeout of `triggerDisintegrate`.  In `confirmCard` the source
dereferences `activeCardData!`; the embedding returns the state unchanged
when it is `none` (unreachable along engine paths, which only enter
PREVIEW after a grab set it). -/

structure TarotCardData where
  id : ℕ
  name_en : String
deriving DecidableEq, Repr

def TAROT_DECK : List TarotCardData := [
  ⟨0, "The Fool"⟩, ⟨1, "The Magician"⟩, ⟨2, "The High Priestess"⟩,
  ⟨3, "The Empress"⟩, ⟨4, "The Emperor"⟩, ⟨5, "The Hierophant"⟩,
  ⟨6, "The Lovers"⟩, ⟨7, "The Chariot"⟩, ⟨8, "Strength"⟩,
  ⟨9, "The Hermit"⟩, ⟨10, "Wheel of Fortune"⟩, ⟨11, "Justice"⟩,
  ⟨12, "The Hanged Man"⟩, ⟨13, "Death"⟩, ⟨14, "Temperance"⟩,
  ⟨15, "The Devil"⟩, ⟨16, "The Tower"⟩, ⟨17, "The Star"⟩,
  ⟨18, "The Moon"⟩, ⟨19, "The Sun"⟩, ⟨20, "Judgement"⟩, ⟨21, "The World"⟩,
  ⟨22, "Ace of Wands"⟩, ⟨23, "Two of Wands"⟩, ⟨35, "Page of Wands"⟩,
  ⟨36, "Ace of Cups"⟩, ⟨49, "Page of Cups"⟩,
  ⟨50, "Ace of Swords"⟩, ⟨63, "Page of Swords"⟩,
  ⟨64, "Ace of Pentacles"⟩, ⟨77, "Page of Pentacles"⟩]

def MAX_DRAW_PER_SESSION : ℕ := 3

structure CardHistory where
  isReversed : Bool
  timestamp : ℤ
  cardData : TarotCardData
deriving DecidableEq, Repr

structure EngineState where
  state : GameState
  deck : List TarotCardData
  history : List CardHistory
  sessionDrawnCount : ℕ
  activeCardData : Option TarotCardData
  isReversed : Bool
deriving DecidableEq, Repr

def initEngineState : EngineState :=
  { state := GameState.READY, deck := TAROT_DECK, history := [],
    sessionDrawnCount := 0, activeCardData := none, isReversed := false }

inductive EngineEvent where
  | gestureEnter (g : Gesture) (hit : Option ℕ) (coin : Bool) (now : ℤ)
  | reachPreview
  | disintegrateDone
deriving DecidableEq, Repr

def resetDeck (s : EngineState) : EngineState :=
  { s with deck := TAROT_DECK, history := [], sessionDrawnCount := 0,
           state := GameState.READY }

def tryGrab (s : EngineState) (hit : Option ℕ) (coin : Bool) : EngineState :=
  if MAX_DRAW_PER_SESSION ≤ s.sessionDrawnCount then s
  else
    match hit with
    | none => s
    | some i =>
      if h : i < s.deck.length then
        let cardData := s.deck.get ⟨i, h⟩
        { s with activeCardData := some cardData,
                 isReversed := coin,
                 deck := s.deck.filter (fun c => c.id ≠ cardData.id),
                 state := GameState.GRABBING }
      else s

def confirmCard (s : EngineState) (now : ℤ) : EngineState :=
  match s.activeCardData with
  | some card =>
      { s with sessionDrawnCount := s.sessionDrawnCount + 1,
               state := GameState.CONFIRMED,
               history := ⟨s.isReversed, now, card⟩ :: s.history }
  | none => s

def triggerDisintegrate (s : EngineState) : EngineState :=
  if s.state ≠ GameState.CONFIRMED then s
  else { s with state := GameState.DISINTEGRATING }

def onGestureEnter (s : EngineState) (g : Gesture) (hit : Option ℕ) (coin : Bool)
    (now : ℤ) : EngineState :=
  if g = Gesture.PINCH ∧ s.state = GameState.READY then
    tryGrab s hit coin
  else if g = Gesture.FIST then
    if s.state = GameState.PREVIEW then confirmCard s now
    else if s.state = GameState.CONFIRMED then triggerDisintegrate s
    else if s.state = GameState.READY ∧
        MAX_DRAW_PER_SESSION ≤ s.sessionDrawnCount then
      resetDeck s
    else s
  else s

def engineStep (s : EngineState) : EngineEvent → EngineState
  | EngineEvent.gestureEnter g hit coin now => onGestureEnter s g hit coin now
  | EngineEvent.reachPreview =>
      if s.state = GameState.GRABBING then { s with state := GameState.PREVIEW }
      else s
  | EngineEvent.disintegrateDone =>
      if s.state = GameState.DISINTEGRATING then { s with state := GameState.READY }
      else s

def engineRun (s : EngineState) (evs : List EngineEvent) : EngineState :=
  evs.foldl engineStep s

def DrawInv (s : EngineState) : Prop :=
  s.sessionDrawnCount ≤ MAX_DRAW_PER_SESSION ∧
  ((s.state = GameState.GRABBING ∨ s.state = GameState.PREVIEW) →
    s.sessionDrawnCount < MAX_DRAW_PER_SESSION)

instance (s : EngineState) : Decidable (DrawInv s) :=
  inferInstanceAs (Decidable (_ ∧ _))

def isResetStep (s : EngineState) : EngineEvent → Prop
  | EngineEvent.gestureEnter g _ _ _ =>
      g = Gesture.FIST ∧ s.state = GameState.READY ∧
        MAX_DRAW_PER_SESSION ≤ s.sessionDrawnCount
  | _ => False

lemma tryGrab_quota (s : EngineState) (hit : Option ℕ) (coin : Bool)
    (h : MAX_DRAW_PER_SESSION ≤ s.sessionDrawnCount) :
    tryGrab s hit coin = s := by
  unfold tryGrab
  rw [if_pos h]

lemma tryGrab_cases (s : EngineState) (hit : Option ℕ) (coin : Bool) :
    tryGrab s hit coin = s ∨
    (s.sessionDrawnCount < MAX_DRAW_PER_SESSION ∧
      ∃ (i : ℕ) (h : i < s.deck.length), hit = some i ∧
        tryGrab s hit coin =
          { s with activeCardData := some (s.deck.get ⟨i, h⟩),
                   isReversed := coin,
                   deck := s.deck.filter
                     (fun c => c.id ≠ (s.deck.get ⟨i, h⟩).id),
                   state := GameState.GRABBING }) := by
  unfold tryGrab
  by_cases hq : MAX_DRAW_PER_SESSION ≤ s.sessionDrawnCount
  · rw [if_pos hq]
    exact Or.inl rfl
  · rw [if_neg hq]
    cases hit with
    | none => exact Or.inl rfl
    | some i =>
      dsimp only
      by_cases h : i < s.deck.length
      · rw [dif_pos h]
        exact Or.inr ⟨by omega, i, h, rfl, rfl⟩
      · rw [dif_neg h]
        exact Or.inl rfl

lemma confirmCard_cases (s : EngineState) (now : ℤ) :
    confirmCard s now = s ∨
    ∃ card, s.activeCardData = some card ∧
      confirmCard s now =
        { s with sessionDrawnCount := s.sessionDrawnCount + 1,
                 state := GameState.CONFIRMED,
                 history := ⟨s.isReversed, now, card⟩ :: s.history } := by
  unfold confirmCard
  cases hac : s.activeCardData with
  | none => exact Or.inl rfl
  | some card => exact Or.inr ⟨card, rfl, rfl⟩

lemma triggerDisintegrate_cases (s : EngineState) :
    triggerDisintegrate s = s ∨
    triggerDisintegrate s = { s with state := GameState.DISINTEGRATING } := by
  unfold triggerDisintegrate
  split
  · exact Or.inl rfl
  · exact Or.inr rfl

lemma engineStep_reset (s : EngineState) (e : EngineEvent)
    (hr : isResetStep s e) : engineStep s e = resetDeck s := by
  cases e with
  | gestureEnter g hit coin now =>
    obtain ⟨hg, hst, hq⟩ := hr
    subst hg
    simp [engineStep, onGestureEnter, hst, hq]
  | reachPreview => exact absurd hr (by simp [isResetStep])
  | disintegrateDone => exact absurd hr (by simp [isResetStep])

lemma engineStep_count_mono (s : EngineState) (e : EngineEvent)
    (hnr : ¬isResetStep s e) :
    s.sessionDrawnCount ≤ (engineStep s e).sessionDrawnCount := by
  cases e with
  | gestureEnter g hit coin now =>
    cases g with
    | PINCH =>
      show s.sessionDrawnCount ≤ (onGestureEnter s Gesture.PINCH hit coin now).sessionDrawnCount
      unfold onGestureEnter
      by_cases hst : s.state = GameState.READY
      · rw [if_pos ⟨rfl, hst⟩]
        rcases tryGrab_cases s hit coin with heq | ⟨_, i, hl, _, heq⟩ <;> rw [heq]
      · rw [if_neg (by simp [hst]), if_neg (by simp)]
    | FIST =>
      show s.sessionDrawnCount ≤ (onGestureEnter s Gesture.FIST hit coin now).sessionDrawnCount
      by_cases hP : s.state = GameState.PREVIEW
      · have hstep : onGestureEnter s Gesture.FIST hit coin now = confirmCard s now := by
          simp [onGestureEnter, hP]
        rw [hstep]
        rcases confirmCard_cases s now with heq | ⟨card, hac, heq⟩ <;> rw [heq]
        · exact Nat.le_succ _
      · by_cases hC : s.state = GameState.CONFIRMED
        · have hstep : onGestureEnter s Gesture.FIST hit coin now =
              triggerDisintegrate s := by
            simp [onGestureEnter, hP, hC]
          rw [hstep]
          rcases triggerDisintegrate_cases s with heq | heq <;> rw [heq]
        · have hnr2 : ¬(s.state = GameState.READY ∧
              MAX_DRAW_PER_SESSION ≤ s.sessionDrawnCount) := by
            intro hc
            exact hnr ⟨rfl, hc.1, hc.2⟩
          have hstep : onGestureEnter s Gesture.FIST hit coin now = s := by
            simp [onGestureEnter, hP, hC, hnr2]
          rw [hstep]
    | NONE => exact le_rfl
    | OPEN => exact le_rfl
    | POINT => exact le_rfl
  | reachPreview =>
    show s.sessionDrawnCount ≤
      (if s.state = GameState.GRABBING then
        { s with state := GameState.PREVIEW } else s).sessionDrawnCount
    split <;> exact le_rfl
  | disintegrateDone =>
    show s.sessionDrawnCount ≤
      (if s.state = GameState.DISINTEGRATING then
        { s with state := GameState.READY } else s).sessionDrawnCount
    split <;> exact le_rfl

lemma engineStep_pinch_quota (s : EngineState) (hit : Option ℕ) (coin : Bool)
    (now : ℤ) (hq : MAX_DRAW_PER_SESSION ≤ s.sessionDrawnCount) :
    engineStep s (EngineEvent.gestureEnter Gesture.PINCH hit coin now) = s := by
  show onGestureEnter s Gesture.PINCH hit coin now = s
  unfold onGestureEnter
  by_cases hst : s.state = GameState.READY
  · rw [if_pos ⟨rfl, hst⟩]
    exact tryGrab_quota s hit coin hq
  · rw [if_neg (by simp [hst]), if_neg (by simp)]

lemma drawInv_step (s : EngineState) (e : EngineEvent)
    (hInv : DrawInv s) : DrawInv (engineStep s e) := by
  obtain ⟨h1, h2⟩ := hInv
  cases e with
    | gestureEnter g hit coin now =>
      simp only [engineStep, onGestureEnter]
      split_ifs with hA hB hC hD hE
      · rcases tryGrab_cases s hit coin with heq | ⟨hlt, i, hilen, hhit, heq⟩
        · rw [heq]; exact ⟨h1, h2⟩
        · rw [heq]
          exact ⟨h1, fun _ => hlt⟩
      · rcases confirmCard_cases s now with heq | ⟨card, hac, heq⟩
        · rw [heq]; exact ⟨h1, h2⟩
        · rw [heq]
          have hlt := h2 (Or.inr hC)
          refine ⟨by simpa using hlt, fun hc => ?_⟩
          simp at hc
      · rcases triggerDisintegrate_cases s with heq | heq
        · rw [heq]; exact ⟨h1, h2⟩
        · rw [heq]
          refine ⟨h1, fun hc => ?_⟩
          simp at hc
      · exact ⟨by simp [resetDeck, MAX_DRAW_PER_SESSION],
          fun _ => by simp [resetDeck, MAX_DRAW_PER_SESSION]⟩
      · exact ⟨h1, h2⟩
      · exact ⟨h1, h2⟩
    | reachPreview =>
      simp only [engineStep]
      split
      · rename_i hg
        exact ⟨h1, fun _ => h2 (Or.inl hg)⟩
      · exact ⟨h1, h2⟩
    | disintegrateDone =>
      simp only [engineStep]
      split
      · refine ⟨h1, fun hc => ?_⟩
        simp at hc
      · exact ⟨h1, h2⟩

lemma engineRun_drawInv :
    ∀ (evs : List EngineEvent) (s : EngineState), DrawInv s →
      DrawInv (engineRun s evs) := by
  intro evs
  induction evs with
  | nil => intro s h; exact h
  | cons e rest ih =>
    intro s h
    exact ih (engineStep s e) (drawInv_step s e h)

/-- C1: in every session the drawn count is bounded by 3 (`DrawInv`, an
inductive invariant preserved by every step and so by every event
sequence; `0 ≤` holds because the count is a natural number), a reset step
(FIST enter in READY with the quota exhausted) sets it to exactly 0, every
non-reset step leaves it non-decreasing, and a PINCH grab attempt while
the count is ≥ 3 makes no state change at all. -/
theorem drawCount_invariant (s : EngineState) (e : EngineEvent)
    (hInv : DrawInv s) :
    DrawInv (engineStep s e) ∧
    (∀ evs, DrawInv (engineRun s evs)) ∧
    (isResetStep s e → (engineStep s e).sessionDrawnCount = 0) ∧
    (¬isResetStep s e →
      s.sessionDrawnCount ≤ (engineStep s e).sessionDrawnCount) ∧
    (∀ hit coin now, MAX_DRAW_PER_SESSION ≤ s.sessionDrawnCount →
      engineStep s (EngineEvent.gestureEnter Gesture.PINCH hit coin now) = s) := by
  refine ⟨drawInv_step s e hInv, fun evs => engineRun_drawInv evs s hInv, ?_, ?_, ?_⟩
  · intro hr
    rw [engineStep_reset s e hr]
    simp [resetDeck]
  · exact engineStep_count_mono s e
  · exact engineStep_pinch_quota s

def quotaFullState : EngineState :=
  { initEngineState with sessionDrawnCount := 3 }

/-- Witness for C1 at the quota-exhausted READY state. -/
theorem drawCount_invariant_witness :
    DrawInv (engineStep quotaFullState
      (EngineEvent.gestureEnter Gesture.FIST none false 0)) ∧
    (engineStep quotaFullState
      (EngineEvent.gestureEnter Gesture.FIST none false 0)).sessionDrawnCount = 0 ∧
    engineStep quotaFullState
      (EngineEvent.gestureEnter Gesture.PINCH none false 0) = quotaFullState := by
  have h := drawCount_invariant quotaFullState
    (EngineEvent.gestureEnter Gesture.FIST none false 0) (by decide)
  exact ⟨h.1, h.2.2.1 ⟨rfl, rfl, le_rfl⟩, h.2.2.2.2 none false 0 le_rfl⟩

lemma filter_ne_id_length :
    ∀ (l : List TarotCardData) (c : TarotCardData), c ∈ l →
      (l.map (fun d => d.id)).Nodup →
      (l.filter (fun d => d.id ≠ c.id)).length + 1 = l.length := by
  intro l
  induction l with
  | nil => intro c hmem; simp at hmem
  | cons d t ih =>
    intro c hmem hnodup
    simp only [List.map_cons, List.nodup_cons] at hnodup
    by_cases hid : d.id = c.id
    · have hall : ∀ x ∈ t, ¬x.id = c.id := by
        intro x hx hxc
        exact hnodup.1 (hid ▸ hxc ▸ List.mem_map_of_mem (fun d => d.id) hx)
      simp [List.filter_cons, hid, hall]
      exact hall
    · have hct : c ∈ t := by
        rcases List.mem_cons.mp hmem with rfl | h
        · exact absurd rfl hid
        · exact h
      have := ih c hct hnodup.2
      simp only [List.filter_cons]
      rw [if_pos (by simpa using hid)]
      simp only [List.length_cons]
      omega

/-- C6 grab step shape. -/
lemma grab_step_eq (s : EngineState) (i : ℕ) (coin : Bool) (now : ℤ)
    (hstate : s.state = GameState.READY)
    (hquota : s.sessionDrawnCount < MAX_DRAW_PER_SESSION)
    (hi : i < s.deck.length) :
    engineStep s (EngineEvent.gestureEnter Gesture.PINCH (some i) coin now) =
      { s with activeCardData := some (s.deck.get ⟨i, hi⟩),
               isReversed := coin,
               deck := s.deck.filter
                 (fun c => c.id ≠ (s.deck.get ⟨i, hi⟩).id),
               state := GameState.GRABBING } := by
  show onGestureEnter s Gesture.PINCH (some i) coin now = _
  unfold onGestureEnter
  rw [if_pos ⟨rfl, hstate⟩]
  unfold tryGrab
  rw [if_neg (by omega)]
  dsimp only
  rw [dif_pos hi]

/-- C6: a successful draw (PINCH grab of a hit card in READY under quota)
removes exactly the hit card from the deck — the card is absent
immediately after, removal is by card id, and the deck length decreases by
exactly one (given the deck ids are duplicate-free, as they are in
`TAROT_DECK`); the card becomes the active card, and at confirmation
exactly one history entry holding the card snapshot is prepended
(most-recent-first order). -/
theorem draw_removal_and_history (s : EngineState) (i : ℕ) (coin : Bool) (now : ℤ)
    (hstate : s.state = GameState.READY)
    (hquota : s.sessionDrawnCount < MAX_DRAW_PER_SESSION)
    (hi : i < s.deck.length)
    (hnodup : (s.deck.map (fun c => c.id)).Nodup) :
    (s.deck.get ⟨i, hi⟩) ∉
      (engineStep s (EngineEvent.gestureEnter Gesture.PINCH (some i) coin now)).deck ∧
    (∀ c ∈ (engineStep s
        (EngineEvent.gestureEnter Gesture.PINCH (some i) coin now)).deck,
      c.id ≠ (s.deck.get ⟨i, hi⟩).id) ∧
    (engineStep s
      (EngineEvent.gestureEnter Gesture.PINCH (some i) coin now)).deck.length + 1 =
      s.deck.length ∧
    (engineStep s
      (EngineEvent.gestureEnter Gesture.PINCH (some i) coin now)).activeCardData =
      some (s.deck.get ⟨i, hi⟩) ∧
    (engineStep s
      (EngineEvent.gestureEnter Gesture.PINCH (some i) coin now)).state =
      GameState.GRABBING ∧
    (∀ (s₂ : EngineState) (now₂ : ℤ) (card : TarotCardData),
      s₂.state = GameState.PREVIEW → s₂.activeCardData = some card →
      (engineStep s₂
        (EngineEvent.gestureEnter Gesture.FIST none coin now₂)).history =
        { isReversed := s₂.isReversed, timestamp := now₂, cardData := card } ::
          s₂.history) := by
  rw [grab_step_eq s i coin now hstate hquota hi]
  have habs : ∀ c ∈ s.deck.filter
      (fun c => c.id ≠ (s.deck.get ⟨i, hi⟩).id),
      c.id ≠ (s.deck.get ⟨i, hi⟩).id := by
    intro c hc
    have := List.of_mem_filter hc
    simpa using this
  refine ⟨?_, habs, ?_, rfl, rfl, ?_⟩
  · intro hmem
    exact habs _ hmem rfl
  · exact filter_ne_id_length s.deck (s.deck.get ⟨i, hi⟩)
      (s.deck.get_mem i hi) hnodup
  · intro s₂ now₂ card hP hA
    have hstep : engineStep s₂ (EngineEvent.gestureEnter Gesture.FIST none coin now₂) =
        confirmCard s₂ now₂ := by
      show onGestureEnter s₂ Gesture.FIST none coin now₂ = _
      simp [onGestureEnter, hP]
    rw [hstep]
    simp [confirmCard, hA]

/-- Witness for C6: drawing the first card of the fresh deck. -/
theorem draw_removal_and_history_witness :
    (engineStep initEngineState
      (EngineEvent.gestureEnter Gesture.PINCH (some 0) false 0)).deck.length + 1 =
      TAROT_DECK.length ∧
    (engineStep initEngineState
      (EngineEvent.gestureEnter Gesture.PINCH (some 0) false 0)).activeCardData =
      some (TAROT_DECK.get ⟨0, by decide⟩) ∧
    (engineStep initEngineState
      (EngineEvent.gestureEnter Gesture.PINCH (some 0) false 0)).state =
      GameState.GRABBING := by
  have h := draw_removal_and_history initEngineState 0 false 0 rfl (by decide)
    (by decide) (by decide)
  exact ⟨h.2.2.1, h.2.2.2.1, h.2.2.2.2.1⟩

def drawEvents (i : ℕ) (now : ℤ) : List EngineEvent :=
  [EngineEvent.gestureEnter Gesture.PINCH (some i) false now,
   EngineEvent.reachPreview,
   EngineEvent.gestureEnter Gesture.FIST none false (now + 100),
   EngineEvent.gestureEnter Gesture.FIST none false (now + 200),
   EngineEvent.disintegrateDone]

def scenarioDraw3 : EngineState :=
  engineRun initEngineState
    (drawEvents 0 1000 ++ drawEvents 0 2000 ++ drawEvents 0 3000)

def scenarioAfterReset : EngineState :=
  engineStep scenarioDraw3 (EngineEvent.gestureEnter Gesture.FIST none false 4000)

/-- C8 counterexample: the deck literal `TAROT_DECK` has 31 cards, not the
32 stated in the claim, so after three draws the deck holds 28 cards (not
29) and a reset restores 31 (not 32). -/
theorem scenario_32_card_cex :
    TAROT_DECK.length ≠ 32 ∧ scenarioDraw3.deck.length ≠ 29 ∧
    scenarioAfterReset.deck.length ≠ 32 := by decide

/-- C8 amended: fresh session with the actual 31-card deck; three
PINCH-grab / FIST-confirm / FIST-release cycles yield drawn-count 3,
History length 3 in most-recent-first order, Deck length 28 = 31 − 3; a
subsequent FIST enter in READY performs the full reset (Deck 31,
History 0, drawn-count 0, state READY). -/
theorem scenario_draw3_reset :
    scenarioDraw3.sessionDrawnCount = 3 ∧
    scenarioDraw3.history.length = 3 ∧
    scenarioDraw3.history.map (fun h => h.cardData.id) = [2, 1, 0] ∧
    scenarioDraw3.deck.length = 28 ∧
    TAROT_DECK.length = 31 ∧
    scenarioDraw3.deck.length + 3 = TAROT_DECK.length ∧
    scenarioAfterReset.deck.length = 31 ∧
    scenarioAfterReset.history.length = 0 ∧
    scenarioAfterReset.sessionDrawnCount = 0 ∧
    scenarioAfterReset.state = GameState.READY := by decide

end Tratort
